import Mathlib

/-!
Shallow embedding of `avalanche/evaluation/metrics/forgetting.py`.

Python dictionaries are embedded as association lists in which an update
conses the new pair at the front and lookup returns the first (most recent)
binding for a key, so "last write wins" exactly as for `dict` assignment.
Metric values (Python floats) are embedded as rationals; experience
identifiers are an arbitrary type with decidable equality.  The
`train_exp_id` / `eval_exp_id` attributes start as Python `None` and are
therefore `Option` valued, and the internal tracker of the aggregators is
keyed by those `Option` values, exactly as the Python dicts are keyed by
whatever object `self.eval_exp_id` holds.
-/

universe u

variable {κ : Type u} [DecidableEq κ]

/-- First-match lookup in an association list (embedding of `k in d` /
`d[k]` on a Python dict whose updates cons at the front). -/
def dlookup : List (κ × ℚ) → κ → Option ℚ
  | [], _ => none
  | p :: d, k => if p.1 = k then some p.2 else dlookup d k

/-- The key set of an embedded dict, as a duplicate-free list
(embedding of `d.keys()`). -/
def dkeys (d : List (κ × ℚ)) : List κ :=
  (d.map Prod.fst).dedup

/-- Embedding of the standalone `Forgetting` metric: the two dicts
`self.initial` and `self.last` (`forgetting.py`, lines 37-52). -/
structure Forgetting (κ : Type u) where
  initial : List (κ × ℚ)
  last : List (κ × ℚ)
  deriving DecidableEq

/-- Embedding of `Forgetting.__init__`: both dicts start empty. -/
def Forgetting.init : Forgetting κ :=
  ⟨[], []⟩

/-- Embedding of `Forgetting.update_initial` (line 54): `self.initial[k] = v`. -/
def Forgetting.update_initial (f : Forgetting κ) (k : κ) (v : ℚ) : Forgetting κ :=
  ⟨(k, v) :: f.initial, f.last⟩

/-- Embedding of `Forgetting.update_last` (line 57): `self.last[k] = v`. -/
def Forgetting.update_last (f : Forgetting κ) (k : κ) (v : ℚ) : Forgetting κ :=
  ⟨f.initial, (k, v) :: f.last⟩

/-- Embedding of `Forgetting.update` (line 60): dispatch on the `initial` flag. -/
def Forgetting.update (f : Forgetting κ) (k : κ) (v : ℚ) (ini : Bool) : Forgetting κ :=
  if ini then f.update_initial k v else f.update_last k v

/-- The `k is not None` branch of `Forgetting.result` (lines 84-88):
`initial[k] - last[k]` when `k` is in both dicts, otherwise `None`. -/
def Forgetting.result1 (f : Forgetting κ) (k : κ) : Option ℚ :=
  match dlookup f.initial k, dlookup f.last k with
  | some a, some b => some (a - b)
  | some _, none => none
  | none, _ => none

/-- The `k is None` branch of `Forgetting.result` (lines 90-96): a dict over
the intersection of the two key sets, each key mapped to
`initial[k] - last[k]`. -/
def Forgetting.resultAll (f : Forgetting κ) : List (κ × ℚ) :=
  ((dkeys f.initial).filter (fun k => k ∈ dkeys f.last)).map
    (fun k => (k, (dlookup f.initial k).getD 0 - (dlookup f.last k).getD 0))

/-- The `Union[float, None, Dict[int, float]]` return type of
`Forgetting.result`. -/
inductive ForgValue (κ : Type u) where
  | single (v : Option ℚ)
  | table (d : List (κ × ℚ))
  deriving DecidableEq

/-- Embedding of `Forgetting.result` (lines 66-96): per-key query when a key is given,
dict over keys seen in both roles when it is omitted. -/
def Forgetting.result (f : Forgetting κ) : Option κ → ForgValue κ
  | some k => .single (f.result1 k)
  | none => .table f.resultAll

/-- Embedding of `Forgetting.reset_last` (lines 98-99): `self.last = dict()`. -/
def Forgetting.reset_last (f : Forgetting κ) : Forgetting κ :=
  ⟨f.initial, []⟩

/-- Embedding of `Forgetting.reset` (lines 101-103): both dicts are re-created empty. -/
def Forgetting.reset (_ : Forgetting κ) : Forgetting κ :=
  ⟨[], []⟩

/-- The operations a client can perform on a `Forgetting` tracker, used to
state that a reset tracker behaves like a fresh one. -/
inductive ForgOp (κ : Type u) where
  | updInitial (k : κ) (v : ℚ)
  | updLast (k : κ) (v : ℚ)
  | upd (k : κ) (v : ℚ) (ini : Bool)
  | rstLast
  | rst
  deriving DecidableEq

/-- Apply one tracker operation. -/
def Forgetting.applyOp (f : Forgetting κ) : ForgOp κ → Forgetting κ
  | .updInitial k v => f.update_initial k v
  | .updLast k v => f.update_last k v
  | .upd k v ini => f.update k v ini
  | .rstLast => f.reset_last
  | .rst => f.reset

/-- Apply a sequence of tracker operations. -/
def Forgetting.applyOps (f : Forgetting κ) : List (ForgOp κ) → Forgetting κ
  | [] => f
  | o :: os => (f.applyOp o).applyOps os

/-- Modelled from the spec: the Running Mean accumulator
(`avalanche.evaluation.metrics.Mean`, an external collaborator whose code is
not part of this module).  It "accumulates weighted scalar samples;
`reset()` clears; `result()` returns their weighted mean, or an undefined
value if no samples were added". -/
structure Mean where
  summed : ℚ
  weight : ℚ
  deriving DecidableEq

/-- Modelled from the spec: a fresh Mean accumulator holds no samples. -/
def Mean.init : Mean :=
  ⟨0, 0⟩

/-- Modelled from the spec: `update(sample, weight)` accumulates one
weighted scalar sample. -/
def Mean.update (m : Mean) (v w : ℚ) : Mean :=
  ⟨m.summed + v * w, m.weight + w⟩

/-- Modelled from the spec: `result()` is the weighted mean of the samples
added so far, undefined (`none`) when no samples were added. -/
def Mean.result (m : Mean) : Option ℚ :=
  if m.weight = 0 then none else some (m.summed / m.weight)

/-- Modelled from the spec: `reset()` clears the accumulator. -/
def Mean.reset (_ : Mean) : Mean :=
  ⟨0, 0⟩

/-- A per-experience result record emitted by
`ExperienceForgetting._package_result` (lines 224-233): the metric name is
produced by the external `get_metric_name` collaborator and is qualified by
the evaluation experience, so the record is embedded as the evaluated key
together with the forgetting value it carries. -/
structure ExpMetricValue (κ : Type u) where
  key : Option κ
  value : ℚ
  deriving DecidableEq

/-- Embedding of the `ExperienceForgetting` plugin metric state
(lines 119-144): its tracker, the result of its `Accuracy` accumulator, and
the two experience ids (Python `None` at construction). -/
structure ExperienceForgetting (κ : Type u) where
  forgetting : Forgetting (Option κ)
  currentAccuracy : ℚ
  evalExpId : Option κ
  trainExpId : Option κ
  deriving DecidableEq

/-- Embedding of `ExperienceForgetting.__init__`: fresh tracker, fresh accuracy
accumulator (result `0`), both experience ids `None`. -/
def ExperienceForgetting.init : ExperienceForgetting κ :=
  ⟨Forgetting.init, 0, none, none⟩

/-- Embedding of `ExperienceForgetting.reset` (lines 146-155). -/
def ExperienceForgetting.reset (s : ExperienceForgetting κ) : ExperienceForgetting κ :=
  ⟨s.forgetting.reset, s.currentAccuracy, s.evalExpId, s.trainExpId⟩

/-- Embedding of `ExperienceForgetting.result` (lines 180-186): delegates to the
tracker. -/
def ExperienceForgetting.result (s : ExperienceForgetting κ) (k : Option (Option κ)) :
    ForgValue (Option κ) :=
  s.forgetting.result k

/-- Embedding of `ExperienceForgetting.before_training_exp` (lines 188-189). -/
def ExperienceForgetting.before_training_exp (s : ExperienceForgetting κ) (k : κ) :
    ExperienceForgetting κ :=
  ⟨s.forgetting, s.currentAccuracy, s.evalExpId, some k⟩

/-- Embedding of `ExperienceForgetting.before_eval` (lines 191-192): resets only the
`last` dict of the tracker. -/
def ExperienceForgetting.before_eval (s : ExperienceForgetting κ) : ExperienceForgetting κ :=
  ⟨s.forgetting.reset_last, s.currentAccuracy, s.evalExpId, s.trainExpId⟩

/-- Embedding of `ExperienceForgetting.before_eval_exp` (lines 194-195): resets the
accuracy accumulator (result of an empty accumulator is `0`). -/
def ExperienceForgetting.before_eval_exp (s : ExperienceForgetting κ) : ExperienceForgetting κ :=
  ⟨s.forgetting, 0, s.evalExpId, s.trainExpId⟩

/-- Embedding of `ExperienceForgetting.after_eval_iteration` (lines 197-201): records the
evaluated experience id; the external `Accuracy` accumulator absorbs the
minibatch, its accumulated result so far being `acc`. -/
def ExperienceForgetting.after_eval_iteration (s : ExperienceForgetting κ) (k : κ) (acc : ℚ) :
    ExperienceForgetting κ :=
  ⟨s.forgetting, acc, some k, s.trainExpId⟩

/-- The tracker update performed at the top of
`ExperienceForgetting.after_eval_exp` (lines 205-215): record the
accumulated accuracy as `initial` when the just-trained id equals the
just-evaluated id, as `last` otherwise. -/
def ExperienceForgetting.updatedForgetting (s : ExperienceForgetting κ) : Forgetting (Option κ) :=
  if s.trainExpId = s.evalExpId
    then s.forgetting.update s.evalExpId s.currentAccuracy true
    else s.forgetting.update s.evalExpId s.currentAccuracy false

/-- Embedding of `ExperienceForgetting.after_eval_exp` (lines 203-222): perform the
tracker update, then emit one result record exactly when the tracker
defines forgetting for the evaluated id. -/
def ExperienceForgetting.after_eval_exp (s : ExperienceForgetting κ) :
    ExperienceForgetting κ × List (ExpMetricValue κ) :=
  match s.updatedForgetting.result1 s.evalExpId with
  | some v =>
      (⟨s.updatedForgetting, s.currentAccuracy, s.evalExpId, s.trainExpId⟩,
        [⟨s.evalExpId, v⟩])
  | none =>
      (⟨s.updatedForgetting, s.currentAccuracy, s.evalExpId, s.trainExpId⟩, [])

/-- One evaluation-experience block of the lifecycle contract:
`before_eval_exp`, the eval iterations over experience `k` accumulating
accuracy `acc`, then `after_eval_exp`. -/
def ExperienceForgetting.runBlock (s : ExperienceForgetting κ) (k : κ) (acc : ℚ) :
    ExperienceForgetting κ × List (ExpMetricValue κ) :=
  ((s.before_eval_exp).after_eval_iteration k acc).after_eval_exp

/-- The lifecycle events the external training loop feeds to a plugin
metric, in the order fixed by the driver. -/
inductive AggEvent (κ : Type u) where
  | trainExp (k : κ)
  | beforeEvalEv
  | evalBlock (k : κ) (acc : ℚ)
  | afterEvalEv (phase st : String)
  deriving DecidableEq

/-- Dispatch one lifecycle event to the `ExperienceForgetting` hooks
(`after_eval` is not overridden by this metric, so it is a no-op). -/
def ExperienceForgetting.step (s : ExperienceForgetting κ) :
    AggEvent κ → ExperienceForgetting κ × List (ExpMetricValue κ)
  | .trainExp k => (s.before_training_exp k, [])
  | .beforeEvalEv => (s.before_eval, [])
  | .evalBlock k acc => s.runBlock k acc
  | .afterEvalEv _ _ => (s, [])

/-- Run a list of lifecycle events, collecting the emitted records. -/
def ExperienceForgetting.run (s : ExperienceForgetting κ) :
    List (AggEvent κ) → ExperienceForgetting κ × List (ExpMetricValue κ)
  | [] => (s, [])
  | e :: es =>
    let p := s.step e
    let q := p.1.run es
    (q.1, p.2 ++ q.2)

/-- Run a list of evaluation-experience blocks (one evaluation stream body). -/
def ExperienceForgetting.runBlocks (s : ExperienceForgetting κ) :
    List (κ × ℚ) → ExperienceForgetting κ × List (ExpMetricValue κ)
  | [] => (s, [])
  | b :: bs =>
    let p := s.runBlock b.1 b.2
    let q := p.1.runBlocks bs
    (q.1, p.2 ++ q.2)

/-- A stream-level result record as built by
`StreamForgetting._package_result` (lines 377-389): the name is assembled in
the source from the format string `'{}/{}_phase/{}_stream'`, and the value
is the metric's `result()` (which may be Python `None`). -/
structure StreamMetricValue where
  name : String
  value : Option ℚ
  deriving DecidableEq

/-- Embedding of the `StreamForgetting` plugin metric state
(lines 252-282): the running mean, its tracker, the accuracy accumulator
result, and the two experience ids. -/
structure StreamForgetting (κ : Type u) where
  stream_forgetting : Mean
  forgetting : Forgetting (Option κ)
  currentAccuracy : ℚ
  evalExpId : Option κ
  trainExpId : Option κ
  deriving DecidableEq

/-- Embedding of `StreamForgetting.__init__`. -/
def StreamForgetting.init : StreamForgetting κ :=
  ⟨Mean.init, Forgetting.init, 0, none, none⟩

/-- Embedding of `StreamForgetting.reset` (lines 284-294). -/
def StreamForgetting.reset (s : StreamForgetting κ) : StreamForgetting κ :=
  ⟨s.stream_forgetting.reset, s.forgetting.reset, s.currentAccuracy, s.evalExpId, s.trainExpId⟩

/-- Embedding of `StreamForgetting.exp_result` (lines 319-326): delegates to the
tracker. -/
def StreamForgetting.exp_result (s : StreamForgetting κ) (k : Option (Option κ)) :
    ForgValue (Option κ) :=
  s.forgetting.result k

/-- Embedding of `StreamForgetting.result` (lines 328-334): returns
`self.stream_forgetting.result()` whatever the key argument is. -/
def StreamForgetting.result (s : StreamForgetting κ) (_ : Option (Option κ)) : Option ℚ :=
  s.stream_forgetting.result

/-- Embedding of `StreamForgetting.before_training_exp` (lines 336-337). -/
def StreamForgetting.before_training_exp (s : StreamForgetting κ) (k : κ) :
    StreamForgetting κ :=
  ⟨s.stream_forgetting, s.forgetting, s.currentAccuracy, s.evalExpId, some k⟩

/-- Embedding of `StreamForgetting.before_eval` (lines 339-341): resets the tracker's
`last` dict and the running mean. -/
def StreamForgetting.before_eval (s : StreamForgetting κ) : StreamForgetting κ :=
  ⟨s.stream_forgetting.reset, s.forgetting.reset_last, s.currentAccuracy, s.evalExpId,
    s.trainExpId⟩

/-- Embedding of `StreamForgetting.before_eval_exp` (lines 343-344). -/
def StreamForgetting.before_eval_exp (s : StreamForgetting κ) : StreamForgetting κ :=
  ⟨s.stream_forgetting, s.forgetting, 0, s.evalExpId, s.trainExpId⟩

/-- Embedding of `StreamForgetting.after_eval_iteration` (lines 346-350). -/
def StreamForgetting.after_eval_iteration (s : StreamForgetting κ) (k : κ) (acc : ℚ) :
    StreamForgetting κ :=
  ⟨s.stream_forgetting, s.forgetting, acc, some k, s.trainExpId⟩

/-- Output of one `StreamForgetting` hook: the new state, the result
records returned to the driver, and the samples fed into the running mean
(the `self.stream_forgetting.update(exp_forgetting, weight=1)` calls,
recorded as evaluated-key / value pairs). -/
structure StreamStep (κ : Type u) where
  state : StreamForgetting κ
  records : List StreamMetricValue
  fed : List (Option κ × ℚ)
  deriving DecidableEq

/-- The tracker update performed at the top of
`StreamForgetting.after_eval_exp` (lines 353-363), identical to the one of
`ExperienceForgetting`. -/
def StreamForgetting.updatedForgetting (s : StreamForgetting κ) : Forgetting (Option κ) :=
  if s.trainExpId = s.evalExpId
    then s.forgetting.update s.evalExpId s.currentAccuracy true
    else s.forgetting.update s.evalExpId s.currentAccuracy false

/-- Embedding of `StreamForgetting.after_eval_exp` (lines 352-371): update the tracker
as `ExperienceForgetting` does, then, when the per-experience forgetting is
defined, feed it into the running mean with unit weight.  The hook returns
no result record (the Python method returns `None`). -/
def StreamForgetting.after_eval_exp (s : StreamForgetting κ) : StreamStep κ :=
  match s.updatedForgetting.result1 s.evalExpId with
  | some v =>
      ⟨⟨s.stream_forgetting.update v 1, s.updatedForgetting, s.currentAccuracy, s.evalExpId,
          s.trainExpId⟩,
        [], [(s.evalExpId, v)]⟩
  | none =>
      ⟨⟨s.stream_forgetting, s.updatedForgetting, s.currentAccuracy, s.evalExpId,
          s.trainExpId⟩,
        [], []⟩

/-- Embedding of `StreamForgetting.after_eval` with `_package_result` (lines 373-389):
exactly one record, named from the format string
`'{}/{}_phase/{}_stream'` applied to `str(self)` and the externally supplied
phase and stream names, carrying `self.result()`. -/
def StreamForgetting.after_eval (s : StreamForgetting κ) (phase st : String) : StreamStep κ :=
  ⟨s, [⟨"StreamForgetting/" ++ phase ++ "_phase/" ++ st ++ "_stream", s.result none⟩], []⟩

/-- One evaluation-experience block for the stream metric. -/
def StreamForgetting.runBlock (s : StreamForgetting κ) (k : κ) (acc : ℚ) : StreamStep κ :=
  ((s.before_eval_exp).after_eval_iteration k acc).after_eval_exp

/-- Dispatch one lifecycle event to the `StreamForgetting` hooks. -/
def StreamForgetting.step (s : StreamForgetting κ) : AggEvent κ → StreamStep κ
  | .trainExp k => ⟨s.before_training_exp k, [], []⟩
  | .beforeEvalEv => ⟨s.before_eval, [], []⟩
  | .evalBlock k acc => s.runBlock k acc
  | .afterEvalEv phase st => s.after_eval phase st

/-- Run a list of lifecycle events, collecting records and mean feeds. -/
def StreamForgetting.run (s : StreamForgetting κ) : List (AggEvent κ) → StreamStep κ
  | [] => ⟨s, [], []⟩
  | e :: es =>
    let p := s.step e
    let q := p.state.run es
    ⟨q.state, p.records ++ q.records, p.fed ++ q.fed⟩

/-- Run a list of evaluation-experience blocks (one evaluation stream
body) for the stream metric. -/
def StreamForgetting.runBlocks (s : StreamForgetting κ) : List (κ × ℚ) → StreamStep κ
  | [] => ⟨s, [], []⟩
  | b :: bs =>
    let p := s.runBlock b.1 b.2
    let q := p.state.runBlocks bs
    ⟨q.state, p.records ++ q.records, p.fed ++ q.fed⟩

/-- Embedding of `forgetting_metrics` (lines 395-418), with the metric classes embedded
as tags: experience-level metric first, then stream-level. -/
def forgetting_metrics (experience stream : Bool) : List String :=
  (if experience then ["ExperienceForgetting"] else []) ++
    (if stream then ["StreamForgetting"] else [])

/-- Whether an event sequence, started when the last-trained experience id
is `t0`, ever evaluates experience `q` in the very pass that follows
training on `q` — the claim-side characterisation of "`q` was recorded as
trained": the only way `after_eval_exp` writes an `initial` entry for `q`. -/
def trainedSamePass (t0 : Option κ) (q : κ) : List (AggEvent κ) → Bool
  | [] => false
  | AggEvent.trainExp k :: es => trainedSamePass (some k) q es
  | AggEvent.evalBlock k _ :: es =>
      (decide (t0 = some q) && decide (k = q)) || trainedSamePass t0 q es
  | AggEvent.beforeEvalEv :: es => trainedSamePass t0 q es
  | AggEvent.afterEvalEv _ _ :: es => trainedSamePass t0 q es

/-! ### Lemmas about the embedded dictionaries -/

theorem dlookup_ne_none (d : List (κ × ℚ)) (k : κ) :
    dlookup d k ≠ none ↔ k ∈ d.map Prod.fst := by
  induction d with
  | nil => simp [dlookup]
  | cons p d ih =>
    by_cases h : p.1 = k
    · simp [dlookup, h, eq_comm]
    · simp [dlookup, h, ih, Ne.symm h]

theorem mem_dkeys (d : List (κ × ℚ)) (k : κ) :
    k ∈ dkeys d ↔ dlookup d k ≠ none := by
  rw [dkeys, List.mem_dedup, ← dlookup_ne_none]

theorem dlookup_map_self (l : List κ) (g : κ → ℚ) (k : κ) :
    dlookup (l.map fun x => (x, g x)) k = if k ∈ l then some (g k) else none := by
  induction l with
  | nil => simp [dlookup]
  | cons x xs ih =>
    by_cases h : x = k
    · subst h
      simp [dlookup]
    · simp [dlookup, h, Ne.symm h, ih]

theorem result1_none_of_initial_none (f : Forgetting κ) (k : κ)
    (h : dlookup f.initial k = none) : f.result1 k = none := by
  unfold Forgetting.result1
  rw [h]

theorem result1_none_of_last_none (f : Forgetting κ) (k : κ)
    (h : dlookup f.last k = none) : f.result1 k = none := by
  unfold Forgetting.result1
  rw [h]
  cases dlookup f.initial k <;> rfl

theorem result1_some_of_both (f : Forgetting κ) (k : κ) (a b : ℚ)
    (hi : dlookup f.initial k = some a) (hl : dlookup f.last k = some b) :
    f.result1 k = some (a - b) := by
  unfold Forgetting.result1
  rw [hi, hl]

/-! ### Lemmas about the `ExperienceForgetting` hooks -/

theorem exp_after_eval_exp_fst (s : ExperienceForgetting κ) :
    (s.after_eval_exp).1 =
      ⟨s.updatedForgetting, s.currentAccuracy, s.evalExpId, s.trainExpId⟩ := by
  unfold ExperienceForgetting.after_eval_exp
  split <;> rfl

theorem exp_after_eval_exp_snd_none (s : ExperienceForgetting κ)
    (h : s.updatedForgetting.result1 s.evalExpId = none) :
    (s.after_eval_exp).2 = [] := by
  unfold ExperienceForgetting.after_eval_exp
  split
  · rename_i v heq
    rw [h] at heq
    cases heq
  · rfl

theorem exp_after_eval_exp_snd_some (s : ExperienceForgetting κ) (v : ℚ)
    (h : s.updatedForgetting.result1 s.evalExpId = some v) :
    (s.after_eval_exp).2 = [⟨s.evalExpId, v⟩] := by
  unfold ExperienceForgetting.after_eval_exp
  split
  · rename_i w heq
    rw [h] at heq
    cases heq
    rfl
  · rename_i heq
    rw [h] at heq
    cases heq

theorem exp_after_eval_exp_key (s : ExperienceForgetting κ) :
    ∀ e ∈ (s.after_eval_exp).2, e.key = s.evalExpId := by
  unfold ExperienceForgetting.after_eval_exp
  split <;> simp

theorem exp_runBlock_eq (s : ExperienceForgetting κ) (k : κ) (acc : ℚ) :
    s.runBlock k acc =
      ExperienceForgetting.after_eval_exp ⟨s.forgetting, acc, some k, s.trainExpId⟩ := rfl

theorem exp_runBlock_fst (s : ExperienceForgetting κ) (k : κ) (acc : ℚ) :
    (s.runBlock k acc).1 =
      ⟨ExperienceForgetting.updatedForgetting ⟨s.forgetting, acc, some k, s.trainExpId⟩,
        acc, some k, s.trainExpId⟩ := by
  rw [exp_runBlock_eq]
  exact exp_after_eval_exp_fst _

theorem exp_runBlocks_trainExpId (s : ExperienceForgetting κ) (bs : List (κ × ℚ)) :
    ((s.runBlocks bs).1).trainExpId = s.trainExpId := by
  induction bs generalizing s with
  | nil => rfl
  | cons b bs ih =>
    show (((s.runBlock b.1 b.2).1).runBlocks bs).1.trainExpId = s.trainExpId
    rw [ih, exp_runBlock_fst]

theorem exp_runBlocks_last_free (s : ExperienceForgetting κ) (t : κ) (bs : List (κ × ℚ))
    (ht : s.trainExpId = some t) (hl : dlookup s.forgetting.last (some t) = none) :
    dlookup (((s.runBlocks bs).1).forgetting.last) (some t) = none := by
  induction bs generalizing s with
  | nil => exact hl
  | cons b bs ih =>
    show dlookup ((((s.runBlock b.1 b.2).1).runBlocks bs).1.forgetting.last) (some t) = none
    apply ih
    · rw [exp_runBlock_fst]
      exact ht
    · rw [exp_runBlock_fst]
      unfold ExperienceForgetting.updatedForgetting
      dsimp only
      by_cases hb : s.trainExpId = some b.1
      · rw [if_pos hb]
        exact hl
      · rw [if_neg hb]
        have hne : (some b.1 : Option κ) ≠ some t := by
          intro hh
          rw [ht] at hb
          exact hb hh.symm
        simp [Forgetting.update, Forgetting.update_last, dlookup, hne, hl]

theorem exp_pass_blocks_initial (s : ExperienceForgetting κ) (t : κ) (a : ℚ)
    (htr : s.trainExpId = some t) :
    ExperienceForgetting.updatedForgetting ⟨s.forgetting, a, some t, s.trainExpId⟩ =
      s.forgetting.update (some t) a true := by
  unfold ExperienceForgetting.updatedForgetting
  dsimp only
  rw [if_pos htr]

theorem exp_second_pass (s : ExperienceForgetting κ) (t : κ) (a b : ℚ)
    (hi : dlookup s.forgetting.initial (some t) = some a)
    (hne : s.trainExpId ≠ some t) :
    dlookup ((((s.before_eval).runBlock t b).1).forgetting.last) (some t) = some b ∧
    ((s.before_eval).runBlock t b).2 = [⟨some t, a - b⟩] := by
  have hupd : ExperienceForgetting.updatedForgetting
      ⟨(s.before_eval).forgetting, b, some t, (s.before_eval).trainExpId⟩ =
      ((s.before_eval).forgetting).update (some t) b false := by
    unfold ExperienceForgetting.updatedForgetting ExperienceForgetting.before_eval
    dsimp only
    rw [if_neg hne]
  have hres : (ExperienceForgetting.updatedForgetting
      ⟨(s.before_eval).forgetting, b, some t, (s.before_eval).trainExpId⟩).result1 (some t) =
      some (a - b) := by
    rw [hupd]
    refine result1_some_of_both _ _ a b hi ?_
    simp [ExperienceForgetting.before_eval, Forgetting.reset_last, Forgetting.update,
      Forgetting.update_last, dlookup]
  constructor
  · rw [exp_runBlock_fst]
    dsimp only
    rw [hupd]
    simp [ExperienceForgetting.before_eval, Forgetting.reset_last, Forgetting.update,
      Forgetting.update_last, dlookup]
  · rw [exp_runBlock_eq]
    exact exp_after_eval_exp_snd_some _ (a - b) hres

/-- C1: within one evaluation stream (a `before_eval` followed by any
evaluation-experience blocks) whose just-trained experience is `t`, the
block that evaluates `t` itself records the accumulated accuracy `a` as the
initial value of `t` and emits no result record — forgetting for `t` is
undefined in that cycle, since no `last` entry for `t` can exist in the
same stream; a subsequent evaluation pass for `t`, coming after training on
a different experience, records the accumulated accuracy `b` as the `last`
value and emits one record carrying `a - b` (initial minus last). -/
theorem C1_same_pass_initial_then_forgetting (s0 : ExperienceForgetting κ) (t tn : κ)
    (a b : ℚ) (bs : List (κ × ℚ)) (ht : s0.trainExpId = some t) (htn : tn ≠ t) :
    ((s0.before_eval.runBlocks bs).1.runBlock t a).2 = [] ∧
    dlookup ((((s0.before_eval.runBlocks bs).1.runBlock t a).1).forgetting.initial)
      (some t) = some a ∧
    dlookup (((((((s0.before_eval.runBlocks bs).1.runBlock t a).1).before_training_exp tn
      ).before_eval).runBlock t b).1).forgetting.last (some t) = some b ∧
    ((((((s0.before_eval.runBlocks bs).1.runBlock t a).1).before_training_exp tn
      ).before_eval).runBlock t b).2 = [⟨some t, a - b⟩] := by
  have htr : ((s0.before_eval.runBlocks bs).1).trainExpId = some t := by
    rw [exp_runBlocks_trainExpId]
    exact ht
  have hlast : dlookup (((s0.before_eval.runBlocks bs).1).forgetting.last) (some t) = none :=
    exp_runBlocks_last_free _ t bs ht rfl
  have hupd1 := exp_pass_blocks_initial ((s0.before_eval.runBlocks bs).1) t a htr
  have hinit : dlookup ((((s0.before_eval.runBlocks bs).1.runBlock t a).1).forgetting.initial)
      (some t) = some a := by
    rw [exp_runBlock_fst]
    dsimp only
    rw [hupd1]
    simp [Forgetting.update, Forgetting.update_initial, dlookup]
  have hemit1 : ((s0.before_eval.runBlocks bs).1.runBlock t a).2 = [] := by
    rw [exp_runBlock_eq]
    apply exp_after_eval_exp_snd_none
    dsimp only
    rw [hupd1]
    exact result1_none_of_last_none _ _ hlast
  have hsp := exp_second_pass ((((s0.before_eval.runBlocks bs).1.runBlock t a).1
      ).before_training_exp tn) t a b (by exact hinit) (by
    unfold ExperienceForgetting.before_training_exp
    dsimp only
    intro hc
    exact htn (Option.some.inj hc))
  exact ⟨hemit1, hinit, hsp.1, hsp.2⟩

theorem C1_same_pass_initial_then_forgetting_witness :
    (((ExperienceForgetting.init.before_training_exp (0 : ℤ)
      ).before_eval.runBlocks []).1.runBlock 0 (9/10)).2 = [] ∧
    dlookup (((((ExperienceForgetting.init.before_training_exp (0 : ℤ)
      ).before_eval.runBlocks []).1.runBlock 0 (9/10)).1).forgetting.initial)
      (some 0) = some (9/10) ∧
    dlookup ((((((((ExperienceForgetting.init.before_training_exp (0 : ℤ)
      ).before_eval.runBlocks []).1.runBlock 0 (9/10)).1).before_training_exp 1
      ).before_eval).runBlock 0 (7/10)).1).forgetting.last (some 0) = some (7/10) ∧
    (((((((ExperienceForgetting.init.before_training_exp (0 : ℤ)
      ).before_eval.runBlocks []).1.runBlock 0 (9/10)).1).before_training_exp 1
      ).before_eval).runBlock 0 (7/10)).2 = [⟨some 0, 9/10 - 7/10⟩] :=
  C1_same_pass_initial_then_forgetting (ExperienceForgetting.init.before_training_exp 0)
    0 1 (9/10) (7/10) [] rfl (by decide)

/-- C8: the same-pass branch (training id equals evaluation id) always
(re)writes the key's initial value with the accumulated accuracy, even when
the key already holds an initial value from an earlier visit; the
underlying `update_initial` has unconditional last-write-wins semantics. -/
theorem C8_retrain_overwrites_initial (f : Forgetting κ) (k : κ) (v : ℚ)
    (s : ExperienceForgetting κ) (a : ℚ) (h : s.trainExpId = some k) :
    dlookup ((f.update_initial k v).initial) k = some v ∧
    dlookup (((s.runBlock k a).1).forgetting.initial) (some k) = some a := by
  constructor
  · simp [Forgetting.update_initial, dlookup]
  · rw [exp_runBlock_fst]
    dsimp only
    rw [exp_pass_blocks_initial s k a h]
    simp [Forgetting.update, Forgetting.update_initial, dlookup]

theorem C8_retrain_overwrites_initial_witness :
    dlookup (((ExperienceForgetting.runBlock
      (⟨⟨[(some 0, 9/10)], []⟩, 0, none, some 0⟩ : ExperienceForgetting ℤ) 0 (3/5)).1
        ).forgetting.initial) (some 0) = some (3/5) :=
  (C8_retrain_overwrites_initial ⟨[], []⟩ (0 : ℤ) 0
    ⟨⟨[(some 0, 9/10)], []⟩, 0, none, some 0⟩ (3/5) rfl).2

/-! ### Lemmas about the `StreamForgetting` hooks -/

theorem stream_after_eval_exp_records (s : StreamForgetting κ) :
    (s.after_eval_exp).records = [] := by
  unfold StreamForgetting.after_eval_exp
  split <;> rfl

theorem stream_after_eval_exp_fed_key (s : StreamForgetting κ) :
    ∀ p ∈ (s.after_eval_exp).fed, p.1 = s.evalExpId := by
  unfold StreamForgetting.after_eval_exp
  split <;> simp

theorem stream_after_eval_exp_none (s : StreamForgetting κ)
    (h : s.updatedForgetting.result1 s.evalExpId = none) :
    s.after_eval_exp = ⟨⟨s.stream_forgetting, s.updatedForgetting, s.currentAccuracy,
      s.evalExpId, s.trainExpId⟩, [], []⟩ := by
  unfold StreamForgetting.after_eval_exp
  split
  · rename_i v heq
    rw [h] at heq
    cases heq
  · rfl

theorem stream_after_eval_exp_some (s : StreamForgetting κ) (v : ℚ)
    (h : s.updatedForgetting.result1 s.evalExpId = some v) :
    s.after_eval_exp = ⟨⟨s.stream_forgetting.update v 1, s.updatedForgetting,
      s.currentAccuracy, s.evalExpId, s.trainExpId⟩, [], [(s.evalExpId, v)]⟩ := by
  unfold StreamForgetting.after_eval_exp
  split
  · rename_i w heq
    rw [h] at heq
    cases heq
    rfl
  · rename_i heq
    rw [h] at heq
    cases heq

theorem stream_runBlock_eq (s : StreamForgetting κ) (k : κ) (acc : ℚ) :
    s.runBlock k acc = StreamForgetting.after_eval_exp
      ⟨s.stream_forgetting, s.forgetting, acc, some k, s.trainExpId⟩ := rfl

theorem stream_runBlock_mean (s : StreamForgetting κ) (k : κ) (acc : ℚ) :
    ((s.runBlock k acc).state).stream_forgetting.summed =
      s.stream_forgetting.summed + (((s.runBlock k acc).fed).map Prod.snd).sum ∧
    ((s.runBlock k acc).state).stream_forgetting.weight =
      s.stream_forgetting.weight + ((s.runBlock k acc).fed).length := by
  rw [stream_runBlock_eq]
  unfold StreamForgetting.after_eval_exp
  split
  · constructor <;> simp [Mean.update]
  · constructor <;> simp

theorem stream_runBlocks_mean (s : StreamForgetting κ) (bs : List (κ × ℚ)) :
    ((s.runBlocks bs).state).stream_forgetting.summed =
      s.stream_forgetting.summed + (((s.runBlocks bs).fed).map Prod.snd).sum ∧
    ((s.runBlocks bs).state).stream_forgetting.weight =
      s.stream_forgetting.weight + ((s.runBlocks bs).fed).length := by
  induction bs generalizing s with
  | nil => constructor <;> simp [StreamForgetting.runBlocks]
  | cons b bs ih =>
    have hb := stream_runBlock_mean s b.1 b.2
    have hq := ih ((s.runBlock b.1 b.2).state)
    constructor
    · show (((s.runBlock b.1 b.2).state.runBlocks bs).state).stream_forgetting.summed =
        s.stream_forgetting.summed +
          (((s.runBlock b.1 b.2).fed ++
            ((s.runBlock b.1 b.2).state.runBlocks bs).fed).map Prod.snd).sum
      rw [hq.1, hb.1]
      simp [add_assoc]
    · show (((s.runBlock b.1 b.2).state.runBlocks bs).state).stream_forgetting.weight =
        s.stream_forgetting.weight +
          (((s.runBlock b.1 b.2).fed ++
            ((s.runBlock b.1 b.2).state.runBlocks bs).fed).length : ℚ)
      rw [hq.2, hb.2]
      simp [List.length_append, Nat.cast_add, add_assoc]

/-- C2: for every key `k` of the snapshot tracker, `result(k)` is undefined
(`none`) when `k` is absent from either dict — in particular on a fresh
tracker and after `update_initial(k, v)` alone — and equals `a - b` exactly
when the `initial` dict holds `a` and the `last` dict holds `b` for `k`;
the query is a total function and never raises. -/
theorem C2_tracker_result_defined (f : Forgetting κ) (k : κ) (v : ℚ) :
    Forgetting.result1 (Forgetting.init : Forgetting κ) k = none ∧
    Forgetting.result1 ((Forgetting.init : Forgetting κ).update_initial k v) k = none ∧
    ((dlookup f.initial k = none ∨ dlookup f.last k = none) → f.result1 k = none) ∧
    (∀ a b, dlookup f.initial k = some a → dlookup f.last k = some b →
      f.result1 k = some (a - b)) := by
  refine ⟨rfl, result1_none_of_last_none _ _ rfl, ?_,
    fun a b ha hb => result1_some_of_both f k a b ha hb⟩
  rintro (h | h)
  · exact result1_none_of_initial_none f k h
  · exact result1_none_of_last_none f k h

theorem C2_tracker_result_defined_witness :
    Forgetting.result1 (⟨[((0 : ℤ), 9/10)], [(0, 7/10)]⟩ : Forgetting ℤ) 0 =
      some (9/10 - 7/10) :=
  (C2_tracker_result_defined ⟨[(0, 9/10)], [(0, 7/10)]⟩ 0 0).2.2.2 (9/10) (7/10)
    rfl rfl

/-- C5: `result()` with no key returns a dict whose key set is the
intersection of the key sets of `initial` and `last` (for every tracker
state, hence independent of insertion order), mapping each such key to
`initial[k] - last[k]`; keys present in only one dict are silently
excluded. -/
theorem C5_result_table (f : Forgetting κ) (k : κ) :
    (k ∈ dkeys f.resultAll ↔ k ∈ dkeys f.initial ∧ k ∈ dkeys f.last) ∧
    (∀ a b, dlookup f.initial k = some a → dlookup f.last k = some b →
      dlookup f.resultAll k = some (a - b)) ∧
    ((dlookup f.initial k = none ∨ dlookup f.last k = none) →
      dlookup f.resultAll k = none) := by
  have hmap := dlookup_map_self ((dkeys f.initial).filter (fun x => x ∈ dkeys f.last))
    (fun x => (dlookup f.initial x).getD 0 - (dlookup f.last x).getD 0) k
  have hfil : k ∈ (dkeys f.initial).filter (fun x => x ∈ dkeys f.last) ↔
      k ∈ dkeys f.initial ∧ k ∈ dkeys f.last := by
    simp [List.mem_filter]
  refine ⟨?_, ?_, ?_⟩
  · rw [mem_dkeys]
    unfold Forgetting.resultAll
    rw [hmap, ← hfil]
    by_cases h : k ∈ (dkeys f.initial).filter (fun x => x ∈ dkeys f.last)
    · simp [h]
    · simp [h]
  · intro a b ha hb
    have hk : k ∈ (dkeys f.initial).filter (fun x => x ∈ dkeys f.last) := by
      rw [hfil, mem_dkeys, mem_dkeys, ha, hb]
      exact ⟨by simp, by simp⟩
    unfold Forgetting.resultAll
    rw [hmap, if_pos hk, ha, hb]
    rfl
  · intro h
    have hk : k ∉ (dkeys f.initial).filter (fun x => x ∈ dkeys f.last) := by
      rw [hfil, mem_dkeys, mem_dkeys]
      rintro ⟨h1, h2⟩
      rcases h with h | h
      · exact h1 h
      · exact h2 h
    unfold Forgetting.resultAll
    rw [hmap, if_neg hk]

theorem C5_result_table_witness :
    dlookup (Forgetting.resultAll
      (⟨[((0 : ℤ), 9/10), (1, 4/5)], [(0, 7/10)]⟩ : Forgetting ℤ)) 0 =
      some (9/10 - 7/10) :=
  (C5_result_table ⟨[(0, 9/10), (1, 4/5)], [(0, 7/10)]⟩ 0).2.1 (9/10) (7/10)
    rfl rfl

/-- C6: `reset_last()` leaves every `initial` entry unchanged and clears the
`last` dict; afterwards `result(k)` is undefined for every key, and becomes
`initial[k] - b` again once `update_last(k, b)` is called for a key held in
`initial`. -/
theorem C6_reset_last_frame (f : Forgetting κ) (k : κ) (a b : ℚ) :
    (f.reset_last).initial = f.initial ∧
    (f.reset_last).last = [] ∧
    (f.reset_last).result1 k = none ∧
    (dlookup f.initial k = some a →
      Forgetting.result1 ((f.reset_last).update_last k b) k = some (a - b)) := by
  refine ⟨rfl, rfl, result1_none_of_last_none _ _ rfl, fun ha => ?_⟩
  exact result1_some_of_both _ _ a b ha (by simp [Forgetting.reset_last,
    Forgetting.update_last, dlookup])

theorem C6_reset_last_frame_witness :
    Forgetting.result1
      (((⟨[((0 : ℤ), 9/10)], [(0, 1/2)]⟩ : Forgetting ℤ).reset_last).update_last 0 (7/10)) 0 =
      some (9/10 - 7/10) :=
  (C6_reset_last_frame ⟨[(0, 9/10)], [(0, 1/2)]⟩ 0 (9/10) (7/10)).2.2.2 rfl

/-- C9: after `reset()` both dicts are empty and the tracker is the freshly
constructed tracker, so every subsequent operation sequence produces
results identical to the same sequence applied to a fresh tracker. -/
theorem C9_reset_behaves_fresh (f : Forgetting κ) (ops : List (ForgOp κ)) (k : κ) :
    f.reset = (Forgetting.init : Forgetting κ) ∧
    (f.reset).initial = [] ∧ (f.reset).last = [] ∧
    Forgetting.applyOps f.reset ops = Forgetting.applyOps (Forgetting.init : Forgetting κ) ops ∧
    (Forgetting.applyOps f.reset ops).result1 k =
      (Forgetting.applyOps (Forgetting.init : Forgetting κ) ops).result1 k ∧
    (Forgetting.applyOps f.reset ops).resultAll =
      (Forgetting.applyOps (Forgetting.init : Forgetting κ) ops).resultAll :=
  ⟨rfl, rfl, rfl, rfl, rfl, rfl⟩

/-- C3: the value the stream aggregator emits at `after_eval` is the
unweighted mean of exactly the per-experience forgetting values that were
defined during that evaluation stream (each fed with unit weight): the sum
of the fed values divided by their number.  Values from earlier streams are
excluded because `before_eval` resets the running mean accumulator — the
starting state `s` is arbitrary. -/
theorem C3_stream_mean_over_defined (s : StreamForgetting κ) (phase st : String)
    (bs : List (κ × ℚ)) (h : ((s.before_eval).runBlocks bs).fed ≠ []) :
    ((((s.before_eval).runBlocks bs).state).after_eval phase st).records =
      [⟨"StreamForgetting/" ++ phase ++ "_phase/" ++ st ++ "_stream",
        some (((((s.before_eval).runBlocks bs).fed).map Prod.snd).sum /
          (((s.before_eval).runBlocks bs).fed).length)⟩] := by
  have hm := stream_runBlocks_mean (s.before_eval) bs
  have hw : (((s.before_eval).runBlocks bs).state).stream_forgetting.weight =
      ((((s.before_eval).runBlocks bs).fed).length : ℚ) := by
    rw [hm.2]
    simp [StreamForgetting.before_eval, Mean.reset]
  have hs : (((s.before_eval).runBlocks bs).state).stream_forgetting.summed =
      ((((s.before_eval).runBlocks bs).fed).map Prod.snd).sum := by
    rw [hm.1]
    simp [StreamForgetting.before_eval, Mean.reset]
  have hlen : ((((s.before_eval).runBlocks bs).fed).length : ℚ) ≠ 0 :=
    Nat.cast_ne_zero.mpr (fun hc => h (List.length_eq_zero.mp hc))
  have hrec : ((((s.before_eval).runBlocks bs).state).after_eval phase st).records =
      [⟨"StreamForgetting/" ++ phase ++ "_phase/" ++ st ++ "_stream",
        Mean.result ((((s.before_eval).runBlocks bs).state).stream_forgetting)⟩] := rfl
  have hv : Mean.result ((((s.before_eval).runBlocks bs).state).stream_forgetting) =
      some (((((s.before_eval).runBlocks bs).fed).map Prod.snd).sum /
        (((s.before_eval).runBlocks bs).fed).length) := by
    unfold Mean.result
    rw [hw, hs, if_neg hlen]
  rw [hrec, hv]

theorem C3_stream_mean_over_defined_witness :
    ((((⟨⟨0, 0⟩, ⟨[(some 0, 9/10), (some 1, 4/5)], []⟩, 0, none, some 2⟩ :
        StreamForgetting ℤ).before_eval.runBlocks
        [(0, 7/10), (1, 1/2)]).state).after_eval "eval" "test").records =
      [⟨"StreamForgetting/eval_phase/test_stream", some (1/4)⟩] := by
  have hfed : ((⟨⟨0, 0⟩, ⟨[(some 0, 9/10), (some 1, 4/5)], []⟩, 0, none, some 2⟩ :
      StreamForgetting ℤ).before_eval.runBlocks [(0, 7/10), (1, 1/2)]).fed =
      [(some 0, 9/10 - 7/10), (some 1, 4/5 - 1/2)] := rfl
  have h := C3_stream_mean_over_defined
    (⟨⟨0, 0⟩, ⟨[(some 0, 9/10), (some 1, 4/5)], []⟩, 0, none, some 2⟩ : StreamForgetting ℤ)
    "eval" "test" [(0, 7/10), (1, 1/2)] (by rw [hfed]; simp)
  rw [h, hfed]
  norm_num
  rfl

/-- C7: the stream aggregator emits exactly one result record per
evaluation stream, at `after_eval`, carrying the running mean accumulator's
current result under the name
`StreamForgetting/<phase>_phase/<stream>_stream`; `after_eval_exp` never
emits a result record itself (and `after_eval` feeds nothing). -/
theorem C7_stream_emits_once_per_stream (s : StreamForgetting κ) (phase st : String) :
    (s.after_eval phase st).records =
      [⟨"StreamForgetting/" ++ phase ++ "_phase/" ++ st ++ "_stream",
        s.stream_forgetting.result⟩] ∧
    (s.after_eval phase st).records.length = 1 ∧
    (∀ u : StreamForgetting κ, (u.after_eval_exp).records = []) ∧
    (s.after_eval phase st).fed = [] :=
  ⟨rfl, rfl, fun u => stream_after_eval_exp_records u, rfl⟩

/-- C10: `StreamForgetting.result(k)` ignores its key argument entirely:
for every key (including `None`) it returns the running mean accumulator's
current result — even on a state whose tracker defines no per-key
forgetting — unlike `ExperienceForgetting.result(k)`, which delegates to
the per-key tracker query. -/
theorem C10_stream_result_ignores_key (s : StreamForgetting κ)
    (k1 k2 : Option (Option κ)) (t : ExperienceForgetting κ) (k : Option (Option κ)) :
    s.result k1 = s.result k2 ∧
    s.result k1 = s.stream_forgetting.result ∧
    t.result k = t.forgetting.result k ∧
    StreamForgetting.result (⟨⟨1, 2⟩, Forgetting.init, 0, none, none⟩ : StreamForgetting ℤ)
      (some (some 0)) = some (1/2) ∧
    Forgetting.result1 ((⟨⟨1, 2⟩, Forgetting.init, 0, none, none⟩ :
      StreamForgetting ℤ).forgetting) (some 0) = none := by
  refine ⟨rfl, rfl, rfl, ?_, rfl⟩
  norm_num [StreamForgetting.result, Mean.result]

theorem stream_runBlock_fst (s : StreamForgetting κ) (k : κ) (acc : ℚ) :
    ((s.runBlock k acc).state).forgetting = StreamForgetting.updatedForgetting
      ⟨s.stream_forgetting, s.forgetting, acc, some k, s.trainExpId⟩ ∧
    ((s.runBlock k acc).state).trainExpId = s.trainExpId := by
  rw [stream_runBlock_eq]
  unfold StreamForgetting.after_eval_exp
  split <;> exact ⟨rfl, rfl⟩

theorem exp_run_untrained (q : κ) (es : List (AggEvent κ)) (s : ExperienceForgetting κ)
    (hs : dlookup s.forgetting.initial (some q) = none)
    (h : trainedSamePass s.trainExpId q es = false) :
    dlookup (((s.run es).1).forgetting.initial) (some q) = none ∧
    ∀ e ∈ (s.run es).2, e.key ≠ some q := by
  induction es generalizing s with
  | nil => exact ⟨hs, fun e he => nomatch he⟩
  | cons e es ih =>
    cases e with
    | trainExp k =>
      have h2 : trainedSamePass (some k) q es = false := h
      have hrec := ih (s.before_training_exp k) hs h2
      exact ⟨hrec.1, fun e he => hrec.2 e he⟩
    | beforeEvalEv =>
      have hrec := ih s.before_eval hs h
      exact ⟨hrec.1, fun e he => hrec.2 e he⟩
    | afterEvalEv phase st =>
      have hrec := ih s hs h
      exact ⟨hrec.1, fun e he => hrec.2 e he⟩
    | evalBlock k acc =>
      have hh : ((decide (s.trainExpId = some q) && decide (k = q)) ||
          trainedSamePass s.trainExpId q es) = false := h
      have h1 : (decide (s.trainExpId = some q) && decide (k = q)) = false :=
        (Bool.or_eq_false_iff.mp hh).1
      have h2 : trainedSamePass s.trainExpId q es = false :=
        (Bool.or_eq_false_iff.mp hh).2
      have hcond : ¬(s.trainExpId = some q ∧ k = q) := by
        rintro ⟨ha, hb⟩
        simp [ha, hb] at h1
      have hinit2 : dlookup (((s.runBlock k acc).1).forgetting.initial) (some q) = none := by
        rw [exp_runBlock_fst]
        dsimp only
        unfold ExperienceForgetting.updatedForgetting
        dsimp only
        by_cases hc : s.trainExpId = some k
        · rw [if_pos hc]
          have hkq : (some k : Option κ) ≠ some q := by
            intro hxx
            exact hcond ⟨by rw [hc, hxx], Option.some.inj hxx⟩
          simp [Forgetting.update, Forgetting.update_initial, dlookup, hkq, hs]
        · rw [if_neg hc]
          exact hs
      have hem : ∀ e ∈ (s.runBlock k acc).2, e.key ≠ some q := by
        intro e he
        have he2 : e ∈ (ExperienceForgetting.after_eval_exp
            ⟨s.forgetting, acc, some k, s.trainExpId⟩).2 := by
          rw [exp_runBlock_eq] at he
          exact he
        have hkey := exp_after_eval_exp_key _ e he2
        by_cases hkq : k = q
        · exfalso
          have hup : dlookup ((ExperienceForgetting.updatedForgetting
              ⟨s.forgetting, acc, some k, s.trainExpId⟩).initial) (some k) = none := by
            have hx := hinit2
            rw [exp_runBlock_fst] at hx
            rw [← hkq] at hx
            exact hx
          have hnone : (ExperienceForgetting.updatedForgetting
              ⟨s.forgetting, acc, some k, s.trainExpId⟩).result1 (some k) = none :=
            result1_none_of_initial_none _ _ hup
          have hempt : (s.runBlock k acc).2 = [] := by
            rw [exp_runBlock_eq]
            exact exp_after_eval_exp_snd_none _ hnone
          rw [hempt] at he
          cases he
        · rw [hkey]
          intro hxx
          exact hkq (Option.some.inj hxx)
      have hrec := ih ((s.runBlock k acc).1) hinit2 (by
        rw [exp_runBlock_fst]
        exact h2)
      refine ⟨hrec.1, ?_⟩
      intro e he
      have he2 : e ∈ (s.runBlock k acc).2 ++ (((s.runBlock k acc).1).run es).2 := he
      rcases List.mem_append.mp he2 with hm | hm
      · exact hem e hm
      · exact hrec.2 e hm

theorem stream_run_untrained (q : κ) (es : List (AggEvent κ)) (s : StreamForgetting κ)
    (hs : dlookup s.forgetting.initial (some q) = none)
    (h : trainedSamePass s.trainExpId q es = false) :
    dlookup (((s.run es).state).forgetting.initial) (some q) = none ∧
    ∀ p ∈ (s.run es).fed, p.1 ≠ some q := by
  induction es generalizing s with
  | nil => exact ⟨hs, fun p hp => nomatch hp⟩
  | cons e es ih =>
    cases e with
    | trainExp k =>
      have h2 : trainedSamePass (some k) q es = false := h
      have hrec := ih (s.before_training_exp k) hs h2
      exact ⟨hrec.1, fun p hp => hrec.2 p hp⟩
    | beforeEvalEv =>
      have hrec := ih s.before_eval hs h
      exact ⟨hrec.1, fun p hp => hrec.2 p hp⟩
    | afterEvalEv phase st =>
      have hrec := ih s hs h
      exact ⟨hrec.1, fun p hp => hrec.2 p hp⟩
    | evalBlock k acc =>
      have hh : ((decide (s.trainExpId = some q) && decide (k = q)) ||
          trainedSamePass s.trainExpId q es) = false := h
      have h1 : (decide (s.trainExpId = some q) && decide (k = q)) = false :=
        (Bool.or_eq_false_iff.mp hh).1
      have h2 : trainedSamePass s.trainExpId q es = false :=
        (Bool.or_eq_false_iff.mp hh).2
      have hcond : ¬(s.trainExpId = some q ∧ k = q) := by
        rintro ⟨ha, hb⟩
        simp [ha, hb] at h1
      have hinit2 : dlookup (((s.runBlock k acc).state).forgetting.initial) (some q) =
          none := by
        rw [(stream_runBlock_fst s k acc).1]
        unfold StreamForgetting.updatedForgetting
        dsimp only
        by_cases hc : s.trainExpId = some k
        · rw [if_pos hc]
          have hkq : (some k : Option κ) ≠ some q := by
            intro hxx
            exact hcond ⟨by rw [hc, hxx], Option.some.inj hxx⟩
          simp [Forgetting.update, Forgetting.update_initial, dlookup, hkq, hs]
        · rw [if_neg hc]
          exact hs
      have hem : ∀ p ∈ (s.runBlock k acc).fed, p.1 ≠ some q := by
        intro p hp
        have hp2 : p ∈ (StreamForgetting.after_eval_exp
            ⟨s.stream_forgetting, s.forgetting, acc, some k, s.trainExpId⟩).fed := by
          rw [stream_runBlock_eq] at hp
          exact hp
        have hkey := stream_after_eval_exp_fed_key _ p hp2
        by_cases hkq : k = q
        · exfalso
          have hup : dlookup ((StreamForgetting.updatedForgetting
              ⟨s.stream_forgetting, s.forgetting, acc, some k, s.trainExpId⟩).initial)
              (some k) = none := by
            have hx := hinit2
            rw [(stream_runBlock_fst s k acc).1] at hx
            rw [← hkq] at hx
            exact hx
          have hnone : (StreamForgetting.updatedForgetting
              ⟨s.stream_forgetting, s.forgetting, acc, some k, s.trainExpId⟩).result1
              (some k) = none :=
            result1_none_of_initial_none _ _ hup
          have hempt : (s.runBlock k acc).fed = [] := by
            rw [stream_runBlock_eq, stream_after_eval_exp_none _ hnone]
          rw [hempt] at hp
          cases hp
        · rw [hkey]
          intro hxx
          exact hkq (Option.some.inj hxx)
      have hrec := ih ((s.runBlock k acc).state) hinit2 (by
        rw [(stream_runBlock_fst s k acc).2]
        exact h2)
      refine ⟨hrec.1, ?_⟩
      intro p hp
      have hp2 : p ∈ (s.runBlock k acc).fed ++ (((s.runBlock k acc).state).run es).fed := hp
      rcases List.mem_append.mp hp2 with hm | hm
      · exact hem p hm
      · exact hrec.2 p hm

/-- C4: for every experience `q` never recorded as trained — never passed
to `before_training_exp` and then evaluated in the same pass — forgetting
for `q` stays undefined across any number of evaluation passes: starting
from fresh aggregators, the experience aggregator never emits a result
record keyed by `q` and the stream aggregator never feeds a value for `q`
into its running mean. -/
theorem C4_untrained_key_stays_undefined (q : κ) (es : List (AggEvent κ))
    (h : trainedSamePass none q es = false) :
    Forgetting.result1 ((((ExperienceForgetting.init : ExperienceForgetting κ).run es).1
      ).forgetting) (some q) = none ∧
    (∀ e ∈ ((ExperienceForgetting.init : ExperienceForgetting κ).run es).2,
      e.key ≠ some q) ∧
    (∀ p ∈ ((StreamForgetting.init : StreamForgetting κ).run es).fed,
      p.1 ≠ some q) := by
  have he := exp_run_untrained q es ExperienceForgetting.init rfl h
  have hst := stream_run_untrained q es StreamForgetting.init rfl h
  exact ⟨result1_none_of_initial_none _ _ he.1, he.2, hst.2⟩

theorem C4_untrained_key_stays_undefined_witness :
    Forgetting.result1 ((((ExperienceForgetting.init : ExperienceForgetting ℤ).run
      [AggEvent.trainExp 1, AggEvent.beforeEvalEv, AggEvent.evalBlock 5 (4/5),
        AggEvent.evalBlock 1 (1/2), AggEvent.afterEvalEv "eval" "test"]).1).forgetting)
      (some 5) = none :=
  (C4_untrained_key_stays_undefined 5
    [AggEvent.trainExp 1, AggEvent.beforeEvalEv, AggEvent.evalBlock 5 (4/5),
      AggEvent.evalBlock 1 (1/2), AggEvent.afterEvalEv "eval" "test"] (by decide)).1
